import Mathlib

/-!
Shallow embedding of `scripts/notions_search.py`, a fuzzy-pattern-search
command-line script: it normalizes candidate embedding vectors, scores them
against a query vector by dot product, sorts by descending score and prints
the top results.  Python floats are modelled as real numbers; the
stable Python `list.sort(key=..., reverse=True)` is modelled by `List.mergeSort`
with the reversed comparison (stable, ties keep input order, exactly as
CPython documents); the Python slice `scored[:top]` is modelled by
`pySlice`, including its negative-index semantics.
-/

namespace NotionsSearch

/-- Result of the Python lookup `entry.get("vector")` as `_rank` sees it:
the key may be absent (`None`), present but not a list, or a list of
numbers. -/
inductive VecField where
  | absent
  | notSeq
  | seq (v : List ℝ)

/-- The `isinstance(vec, list)` check used by `_rank`. -/
def VecField.isSeq : VecField → Bool
  | .seq _ => true
  | _ => false

/-- A candidate record as consumed by `_rank` and the print loop of `main`:
a dict with optional `id`, `vector` and `title` fields. -/
structure Entry where
  id : Option String
  vector : VecField
  title : Option String

/-- Python `_normalize(vec)`: scales a vector to unit Euclidean norm, returning it
unchanged when the norm is zero (`if norm == 0.0: return values`). -/
noncomputable def _normalize (vec : List ℝ) : List ℝ :=
  let values := vec
  let norm := Real.sqrt ((values.map fun v => v * v).sum)
  if norm = 0 then values else values.map fun v => v / norm

/-- Python `_dot(a, b)`: dot product over `zip(a, b)`; `zip` truncates to the
shorter list, so mismatched dimensions silently use the common prefix. -/
noncomputable def _dot (a b : List ℝ) : ℝ :=
  ((a.zip b).map fun p => p.1 * p.2).sum

/-- The body of the loop in `_rank`: score one entry, or `none` when its
`vector` field is absent or not a list (`if not isinstance(vec, list):
continue`). -/
noncomputable def scoreFn (query_vec : List ℝ) (entry : Entry) :
    Option (ℝ × Entry) :=
  match entry.vector with
  | .seq vec => some (_dot query_vec (_normalize vec), entry)
  | _ => none

/-- The `scored` list built by `_rank` before sorting, in input order. -/
noncomputable def scoreEntries (query_vec : List ℝ) (entries : List Entry) :
    List (ℝ × Entry) :=
  entries.filterMap (scoreFn query_vec)

open Classical in
/-- The comparison realising `scored.sort(key=lambda x: x[0], reverse=True)`:
`a` may come before `b` iff the score of `b` is at most the score of `a`. -/
noncomputable def rankLe (a b : ℝ × Entry) : Bool := decide (b.1 ≤ a.1)

/-- Python slice `l[:top]` for an arbitrary integer `top`: the first `top`
elements when `top ≥ 0`, and all but the last `-top` elements (clamped at
the empty list) when `top < 0`. -/
def pySlice {α : Type} (l : List α) (top : ℤ) : List α :=
  if 0 ≤ top then l.take top.toNat
  else l.take (l.length - (-top).toNat)

/-- Python `_rank(query_vec, entries, top)`: score each entry with a list-valued
`vector` field, sort stably by descending score, and return `scored[:top]`. -/
noncomputable def _rank (query_vec : List ℝ) (entries : List Entry)
    (top : ℤ) : List (ℝ × Entry) :=
  pySlice ((scoreEntries query_vec entries).mergeSort rankLe) top

/-- Number of candidates whose `vector` field is a list. -/
def validCount (entries : List Entry) : ℕ :=
  entries.countP fun e => e.vector.isSeq

/-- A parsed JSON value, as `json.loads` hands it to `_load_embeddings`. -/
inductive Json where
  | obj (members : List (String × Json))
  | arr (items : List Json)
  | num (v : ℚ)
  | str (s : String)
  | boolVal (b : Bool)
  | null

/-- Python `_load_embeddings`: a dict becomes one `{"id": pid, "vector": vec}`
record per key; a list is returned as-is; anything else raises
`SystemExit` with a descriptive message (modelled as `Except.error`). -/
def _load_embeddings (path : String) (payload : Json) :
    Except String (List Json) :=
  match payload with
  | .obj members =>
      .ok (members.map fun kv => Json.obj [("id", Json.str kv.1), ("vector", kv.2)])
  | .arr items => .ok items
  | _ => .error ("Unsupported embeddings format in " ++ path)

/-- Python `entry.get("id", "unknown")` in the print loop of `main`. -/
def Entry.pid (e : Entry) : String := e.id.getD "unknown"

/-- Python `entry.get("title", "")` in the print loop of `main`. -/
def Entry.titleStr (e : Entry) : String := e.title.getD ""

/-- Round a rational to the nearest integer, ties to even — the rounding
applied by `%.4f`-style fixed-point formatting of an exact value. -/
def roundHalfEven (q : ℚ) : ℤ :=
  let f := ⌊q⌋
  let r := q - f
  if r < 1 / 2 then f
  else if 1 / 2 < r then f + 1
  else if f % 2 = 0 then f else f + 1

/-- Zero-pad a fractional part (assumed `< 10000`) to four digits. -/
def pad4 (n : ℕ) : String :=
  if n < 10 then "000" ++ toString n
  else if n < 100 then "00" ++ toString n
  else if n < 1000 then "0" ++ toString n
  else toString n

/-- Python `f"{score:.4f}"`: fixed-point, four decimal places, `-` sign for
negative values (scores modelled as exact rationals). -/
def format4 (q : ℚ) : String :=
  let n := (roundHalfEven (|q| * 10000)).toNat
  let s := toString (n / 10000) ++ "." ++ pad4 (n % 10000)
  if q < 0 then "-" ++ s else s

/-- Python `f"{idx:2d}"`: the index right-justified to a minimum width of two. -/
def padIdx (idx : ℕ) : String :=
  let s := toString idx
  if s.length < 2 then " " ++ s else s

/-- One line of the print loop of `main`: with the ` - <title>` suffix when the
title string is truthy (non-empty), without it otherwise. -/
def renderLine (idx : ℕ) (score : ℚ) (entry : Entry) : String :=
  if entry.titleStr ≠ "" then
    padIdx idx ++ ". " ++ entry.pid ++ " (" ++ format4 score ++ ") - " ++ entry.titleStr
  else
    padIdx idx ++ ". " ++ entry.pid ++ " (" ++ format4 score ++ ")"

/-- The print loop of `main`: `for idx, (score, entry) in enumerate(ranked, start=1)`. -/
def renderResults (ranked : List (ℚ × Entry)) : List String :=
  ranked.enum.map fun ie => renderLine (ie.1 + 1) ie.2.1 ie.2.2

/- Sample entries used by concrete witnesses and counterexamples. -/

/-- An entry whose `vector` is a one-element list. -/
noncomputable def entryA : Entry := ⟨some "a", .seq [1], none⟩

/-- An entry whose `vector` is `[-1]`. -/
noncomputable def entryB : Entry := ⟨some "b", .seq [-1], none⟩

/-- An entry with no `vector` field at all. -/
def entryNoVec : Entry := ⟨some "c", .absent, none⟩

/-! ### Helper lemmas -/

theorem sumSq_nonneg (v : List ℝ) : 0 ≤ (v.map fun x => x * x).sum := by
  induction v with
  | nil => simp
  | cons a t ih => simpa using add_nonneg (mul_self_nonneg a) ih

theorem sumSq_map_div (v : List ℝ) (c : ℝ) :
    ((v.map fun x => x / c).map fun x => x * x).sum
      = ((v.map fun x => x * x).sum) / (c * c) := by
  induction v with
  | nil => simp
  | cons a t ih =>
      simp only [List.map_cons, List.map_map, List.sum_cons] at *
      rw [ih, div_mul_div_comm, add_div]

theorem pySlice_sublist {α : Type} (l : List α) (top : ℤ) :
    List.Sublist (pySlice l top) l := by
  unfold pySlice
  split <;> exact List.take_sublist _ _

theorem pySlice_neg_length {α : Type} (l : List α) (top : ℤ) (h : top < 0) :
    (pySlice l top).length = l.length - (-top).toNat := by
  unfold pySlice
  rw [if_neg (by omega), List.length_take]
  omega

theorem pySlice_eq_self {α : Type} (l : List α) (top : ℤ)
    (h : (l.length : ℤ) ≤ top) : pySlice l top = l := by
  have h0 : (0 : ℤ) ≤ top := le_trans (by positivity) h
  unfold pySlice
  rw [if_pos h0, List.take_of_length_le]
  omega

theorem rankLe_trans (a b c : ℝ × Entry) :
    rankLe a b → rankLe b c → rankLe a c := by
  intro hab hbc
  simp only [rankLe, decide_eq_true_eq] at *
  exact le_trans hbc hab

theorem rankLe_total (a b : ℝ × Entry) : rankLe a b || rankLe b a := by
  simp only [rankLe, Bool.or_eq_true, decide_eq_true_eq]
  exact le_total b.1 a.1

theorem scoreFn_eq_some (q : List ℝ) (e : Entry) (x : ℝ × Entry) :
    scoreFn q e = some x ↔
      ∃ v, e.vector = .seq v ∧ x = (_dot q (_normalize v), e) := by
  cases hv : e.vector with
  | absent => simp [scoreFn, hv]
  | notSeq => simp [scoreFn, hv]
  | seq v =>
      simp [scoreFn, hv]
      tauto

theorem mem_scoreEntries (q : List ℝ) (es : List Entry) (x : ℝ × Entry) :
    x ∈ scoreEntries q es ↔
      ∃ e ∈ es, ∃ v, e.vector = .seq v ∧ x = (_dot q (_normalize v), e) := by
  simp [scoreEntries, List.mem_filterMap, scoreFn_eq_some]

theorem length_scoreEntries (q : List ℝ) (es : List Entry) :
    (scoreEntries q es).length = validCount es := by
  induction es with
  | nil => rfl
  | cons e t ih =>
      cases hv : e.vector <;>
        simp [scoreEntries, validCount, VecField.isSeq, scoreFn, hv,
          List.countP_cons] at * <;> omega

theorem scoreEntries_filter (q : List ℝ) (es : List Entry) :
    scoreEntries q (es.filter fun x => x.vector.isSeq) = scoreEntries q es := by
  induction es with
  | nil => rfl
  | cons e t ih =>
      cases hv : e.vector <;>
        simp [scoreEntries, scoreFn, VecField.isSeq, hv, List.filter_cons] at * <;>
        simpa [scoreEntries, scoreFn, hv] using ih

/-! ### C6: normalizing a zero-norm vector returns it unchanged -/

/-- C6: for every input vector whose Euclidean norm is exactly zero,
`_normalize` returns that vector unchanged; no division is performed. -/
theorem normalize_zero_norm (v : List ℝ)
    (h : Real.sqrt ((v.map fun x => x * x).sum) = 0) : _normalize v = v := by
  simp [_normalize, h]

/-- Witness for C6 at the concrete zero vector `[0, 0]`. -/
theorem normalize_zero_norm_witness :
    Real.sqrt ((([0, 0] : List ℝ).map fun x => x * x).sum) = 0 ∧
      _normalize [0, 0] = [0, 0] := by
  have h : Real.sqrt ((([0, 0] : List ℝ).map fun x => x * x).sum) = 0 := by
    simp
  exact ⟨h, normalize_zero_norm [0, 0] h⟩

/-! ### C7: normalizing a nonzero-norm vector yields a unit vector -/

/-- C7: for every input vector with nonzero Euclidean norm, `_normalize`
returns a vector of the same length, equal to the input with each element
divided by the norm of the input, whose Euclidean norm is `1`. -/
theorem normalize_unit (v : List ℝ)
    (h : Real.sqrt ((v.map fun x => x * x).sum) ≠ 0) :
    (_normalize v).length = v.length ∧
    Real.sqrt (((_normalize v).map fun x => x * x).sum) = 1 ∧
    _normalize v = v.map fun x => x / Real.sqrt ((v.map fun x => x * x).sum) := by
  have hS0 : 0 ≤ (v.map fun x => x * x).sum := sumSq_nonneg v
  have hSne : (v.map fun x => x * x).sum ≠ 0 := by
    intro heq
    exact h (by rw [heq, Real.sqrt_zero])
  have hmap : _normalize v
      = v.map fun x => x / Real.sqrt ((v.map fun x => x * x).sum) := by
    simp [_normalize, h]
  refine ⟨by rw [hmap]; simp, ?_, hmap⟩
  rw [hmap, sumSq_map_div, Real.mul_self_sqrt hS0, div_self hSne, Real.sqrt_one]

/-- Witness for C7 at the concrete vector `[1]`. -/
theorem normalize_unit_witness :
    Real.sqrt ((([1] : List ℝ).map fun x => x * x).sum) ≠ 0 ∧
    ((_normalize [1]).length = ([1] : List ℝ).length ∧
      Real.sqrt (((_normalize [1]).map fun x => x * x).sum) = 1 ∧
      _normalize [1]
        = ([1] : List ℝ).map fun x =>
            x / Real.sqrt ((([1] : List ℝ).map fun x => x * x).sum)) := by
  have h : Real.sqrt ((([1] : List ℝ).map fun x => x * x).sum) ≠ 0 := by
    simp
  exact ⟨h, normalize_unit [1] h⟩

/-! ### C3: ranked output is sorted by non-increasing score -/

/-- C3: for every query vector, candidate list and `top`, the sequence
returned by `_rank` is sorted by non-increasing score: the score of
every result is at least the score of any later result. -/
theorem rank_sorted_descending (q : List ℝ) (es : List Entry) (top : ℤ) :
    (_rank q es top).Pairwise fun a b => b.1 ≤ a.1 := by
  have hs := List.sorted_mergeSort rankLe_trans rankLe_total (scoreEntries q es)
  have hs' : ((scoreEntries q es).mergeSort rankLe).Pairwise
      fun a b => b.1 ≤ a.1 :=
    hs.imp fun h => by simpa [rankLe, decide_eq_true_eq] using h
  exact hs'.sublist (pySlice_sublist _ top)

/-! ### C10: the sort is stable, so tied scores keep input order -/

open Classical in
/-- C10: for every score value `c`, the scored candidates with score `c`
appear in the sorted list in exactly their original (input) relative
order, and the returned prefix preserves that order as well: the sort
realised by `_rank` is stable on ties. -/
theorem rank_stable_ties (q : List ℝ) (es : List Entry) (top : ℤ) (c : ℝ) :
    ((scoreEntries q es).mergeSort rankLe).filter (fun x => decide (x.1 = c))
        = (scoreEntries q es).filter (fun x => decide (x.1 = c))
    ∧ List.Sublist
        ((_rank q es top).filter (fun x => decide (x.1 = c)))
        ((scoreEntries q es).filter (fun x => decide (x.1 = c))) := by
  set p : ℝ × Entry → Bool := fun x => decide (x.1 = c) with hp
  set scored := scoreEntries q es with hscored
  have hmemc : ∀ x ∈ scored.filter p, x.1 = c := by
    intro x hx
    have := List.of_mem_filter hx
    simpa [hp] using this
  have hpw : (scored.filter p).Pairwise fun a b => rankLe a b := by
    apply List.pairwise_of_forall_mem_list
    intro a ha b hb
    simp [rankLe, hmemc a ha, hmemc b hb]
  have hsub1 : List.Sublist (scored.filter p) scored := List.filter_sublist scored
  have hstab : List.Sublist (scored.filter p) (scored.mergeSort rankLe) :=
    List.sublist_mergeSort rankLe_trans rankLe_total hpw hsub1
  have hidem : (scored.filter p).filter p = scored.filter p :=
    List.filter_eq_self.mpr fun a ha => List.of_mem_filter ha
  have hstab2 : List.Sublist (scored.filter p) ((scored.mergeSort rankLe).filter p) := by
    have h2 := hstab.filter p
    rwa [hidem] at h2
  have hperm : List.Perm ((scored.mergeSort rankLe).filter p) (scored.filter p) :=
    (List.mergeSort_perm scored rankLe).filter p
  have conj1 : (scored.mergeSort rankLe).filter p = scored.filter p :=
    (hstab2.eq_of_length hperm.length_eq.symm).symm
  refine ⟨conj1, ?_⟩
  have hsub3 : List.Sublist ((_rank q es top).filter p)
      (((scored.mergeSort rankLe)).filter p) := by
    have := (pySlice_sublist (scored.mergeSort rankLe) top).filter p
    simpa [_rank, hscored] using this
  rwa [conj1] at hsub3

/-! ### C5: candidates without a list-valued vector are silently excluded -/

/-- C5: a candidate whose `vector` field is absent or not a sequence never
appears in the output of `_rank` (under any score), and removing all such
candidates from the input does not change the output at all: their
exclusion does not affect the scoring of the other candidates. -/
theorem rank_excludes_invalid (q : List ℝ) (es : List Entry) (top : ℤ)
    (e : Entry) (h : e.vector.isSeq = false) :
    (∀ s : ℝ, (s, e) ∉ _rank q es top) ∧
      _rank q (es.filter fun x => x.vector.isSeq) top = _rank q es top := by
  constructor
  · intro s hmem
    have h1 : (s, e) ∈ (scoreEntries q es).mergeSort rankLe :=
      (pySlice_sublist _ top).subset hmem
    have h2 : (s, e) ∈ scoreEntries q es := by
      rwa [List.mem_mergeSort] at h1
    rcases (mem_scoreEntries q es _).mp h2 with ⟨e', _, v, hv, hx⟩
    have he : e = e' := congrArg Prod.snd hx
    rw [← he] at hv
    rw [hv] at h
    simp [VecField.isSeq] at h
  · unfold _rank
    rw [scoreEntries_filter]

/-- Witness for C5 at a concrete entry with no `vector` field. -/
theorem rank_excludes_invalid_witness :
    entryNoVec.vector.isSeq = false ∧
    ((∀ s : ℝ, (s, entryNoVec) ∉ _rank [] [entryNoVec] 1) ∧
      _rank [] ([entryNoVec].filter fun x => x.vector.isSeq) 1
        = _rank [] [entryNoVec] 1) :=
  ⟨rfl, rank_excludes_invalid [] [entryNoVec] 1 entryNoVec rfl⟩

/-! ### Concrete evaluations used by counterexamples -/

theorem dot_normalize_one : _dot [1] (_normalize [1]) = 1 := by
  simp [_dot, _normalize]

theorem dot_normalize_negone : _dot [1] (_normalize [-1]) = -1 := by
  simp [_dot, _normalize]

theorem dot_normalize_short : _dot [1, 0] (_normalize [1]) = 1 := by
  simp [_dot, _normalize]

theorem scoreEntries_AB :
    scoreEntries [1] [entryA, entryB] = [(1, entryA), (-1, entryB)] := by
  simp [scoreEntries, scoreFn, entryA, entryB, dot_normalize_one,
    dot_normalize_negone]

theorem mergeSort_AB :
    [((1 : ℝ), entryA), (-1, entryB)].mergeSort rankLe
      = [(1, entryA), (-1, entryB)] := by
  apply List.mergeSort_of_sorted
  refine List.pairwise_cons.mpr ⟨?_, List.pairwise_singleton _ _⟩
  intro y hy
  rw [List.mem_singleton] at hy
  subst hy
  simp [rankLe]

theorem rank_AB_negone : _rank [1] [entryA, entryB] (-1) = [(1, entryA)] := by
  unfold _rank
  rw [scoreEntries_AB, mergeSort_AB]
  unfold pySlice
  rw [if_neg (by decide)]
  simp

theorem scoreEntries_short : scoreEntries [1, 0] [entryA] = [(1, entryA)] := by
  simp [scoreEntries, scoreFn, entryA, dot_normalize_short]

theorem rank_short : _rank [1, 0] [entryA] 1 = [(1, entryA)] := by
  unfold _rank
  rw [scoreEntries_short,
    List.mergeSort_of_sorted (List.pairwise_singleton _ _)]
  unfold pySlice
  rw [if_pos (by decide)]
  simp

/-! ### C1 (corrected): mismatched dimensionality is scored, not skipped -/

/-- C1 counterexample: the query has dimension 2, the vector of `entryA` has
dimension 1, yet the record appears in the ranked output (scored over the
zipped common prefix) instead of being skipped. -/
theorem rank_mismatched_dim_cex :
    ([1] : List ℝ).length ≠ ([1, 0] : List ℝ).length ∧
    entryA.vector = .seq [1] ∧
    (1, entryA) ∈ _rank [1, 0] [entryA] 1 := by
  refine ⟨by decide, rfl, ?_⟩
  rw [rank_short]
  exact List.mem_singleton.mpr rfl

/-- C1 amended: `_rank` skips only records whose `vector` field is absent
or not a sequence; a record whose `vector` is a sequence is scored with
`_dot query (_normalize vector)` (which silently truncates to the common
prefix on dimension mismatch) and, when `top` admits all scored
candidates, it appears in the ranked output whatever its dimensionality. -/
theorem rank_scores_any_seq (q : List ℝ) (es : List Entry) (top : ℤ)
    (e : Entry) (v : List ℝ) (hv : e.vector = .seq v) (he : e ∈ es)
    (htop : (validCount es : ℤ) ≤ top) :
    (_dot q (_normalize v), e) ∈ _rank q es top := by
  have hs : (_dot q (_normalize v), e) ∈ scoreEntries q es :=
    (mem_scoreEntries q es _).mpr ⟨e, he, v, hv, rfl⟩
  have hm : (_dot q (_normalize v), e) ∈ (scoreEntries q es).mergeSort rankLe := by
    rwa [List.mem_mergeSort]
  have hfull : pySlice ((scoreEntries q es).mergeSort rankLe) top
      = (scoreEntries q es).mergeSort rankLe :=
    pySlice_eq_self _ _ (by rw [List.length_mergeSort, length_scoreEntries]; exact htop)
  unfold _rank
  rw [hfull]
  exact hm

/-- Witness for the amended C1 at the dimension-mismatched input. -/
theorem rank_scores_any_seq_witness :
    entryA.vector = .seq [1] ∧ entryA ∈ [entryA] ∧
      ((validCount [entryA] : ℤ) ≤ 1) ∧
      (_dot [1, 0] (_normalize [1]), entryA) ∈ _rank [1, 0] [entryA] 1 :=
  ⟨rfl, List.mem_singleton.mpr rfl, by decide,
    rank_scores_any_seq [1, 0] [entryA] 1 entryA [1] rfl
      (List.mem_singleton.mpr rfl) (by decide)⟩

/-! ### C2 (corrected): `top = 0` yields empty, negative `top` does not -/

/-- C2 counterexample: at `top = -1` (an integer `≤ 0`) with two scored
candidates, `_rank` returns a non-empty list — the Python slice `scored[:top]`
drops only the last entry. -/
theorem rank_nonpositive_top_cex :
    ((-1 : ℤ) ≤ 0) ∧ _rank [1] [entryA, entryB] (-1) ≠ [] := by
  refine ⟨by decide, ?_⟩
  rw [rank_AB_negone]
  simp

/-- C2 amended: `top = 0` yields the empty sequence, but a negative `top`
instead drops the last `-top` scored candidates (Python slice semantics),
yielding a non-empty result whenever more than `-top` candidates scored. -/
theorem rank_nonpositive_top (q : List ℝ) (es : List Entry) :
    _rank q es 0 = [] ∧
      ∀ top : ℤ, top < 0 →
        (_rank q es top).length = validCount es - (-top).toNat := by
  constructor
  · unfold _rank pySlice
    simp
  · intro top htop
    show (pySlice _ top).length = _
    rw [pySlice_neg_length _ top htop, List.length_mergeSort, length_scoreEntries]

/-- Witness for the amended C2 at `top = -1` on the empty candidate list. -/
theorem rank_nonpositive_top_witness :
    _rank [] [] 0 = [] ∧
      (_rank [] [] (-1)).length = validCount [] - (-(-1) : ℤ).toNat :=
  ⟨(rank_nonpositive_top [] []).1,
    (rank_nonpositive_top [] []).2 (-1) (by decide)⟩

/-! ### C4 (corrected): the `min` bound holds only for `top ≥ 0` -/

/-- C4 counterexample: at `top = -1` with two valid candidates the output
has length 1, but `min top validCount = -1`, so the claimed bound fails
for negative `top`. -/
theorem rank_length_min_cex :
    ¬ (((_rank [1] [entryA, entryB] (-1)).length : ℤ)
        ≤ min (-1 : ℤ) (validCount [entryA, entryB] : ℤ)) := by
  rw [rank_AB_negone]
  decide

/-- C4 amended: the output length never exceeds the number of candidates
whose `vector` field is a sequence, and for every `top ≥ 0` it is also at
most `min top` of that count. -/
theorem rank_length_le (q : List ℝ) (es : List Entry) (top : ℤ) :
    (_rank q es top).length ≤ validCount es ∧
      (0 ≤ top → ((_rank q es top).length : ℤ) ≤ min top (validCount es)) := by
  have hlen : ((scoreEntries q es).mergeSort rankLe).length = validCount es := by
    rw [List.length_mergeSort, length_scoreEntries]
  constructor
  · have h := (pySlice_sublist ((scoreEntries q es).mergeSort rankLe) top).length_le
    unfold _rank
    omega
  · intro htop
    have h : (_rank q es top).length = min top.toNat (validCount es) := by
      unfold _rank pySlice
      rw [if_pos htop, List.length_take, hlen]
    rw [h]
    omega

/-- Witness for the amended C4 at `top = 3` on the empty candidate list. -/
theorem rank_length_le_witness :
    ((0 : ℤ) ≤ 3) ∧
    (_rank [] [] 3).length ≤ validCount [] ∧
      ((_rank [] [] 3).length : ℤ) ≤ min 3 (validCount []) :=
  ⟨by decide, (rank_length_le [] [] 3).1, (rank_length_le [] [] 3).2 (by decide)⟩

/-! ### C8: the loader accepts exactly two top-level JSON shapes -/

/-- C8: `_load_embeddings` converts a mapping into one `{id, vector}`
record per key (no title), returns a sequence as-is, and fails with the
descriptive `Unsupported embeddings format` message on every other
top-level shape, producing no records at all. -/
theorem load_embeddings_shapes (path : String)
    (kvs : List (String × Json)) (items : List Json) (p : Json)
    (hobj : ∀ m, p ≠ .obj m) (harr : ∀ its, p ≠ .arr its) :
    _load_embeddings path (.obj kvs)
        = .ok (kvs.map fun kv => Json.obj [("id", Json.str kv.1), ("vector", kv.2)])
    ∧ _load_embeddings path (.arr items) = .ok items
    ∧ _load_embeddings path p
        = .error ("Unsupported embeddings format in " ++ path) := by
  refine ⟨rfl, rfl, ?_⟩
  cases p with
  | obj m => exact absurd rfl (hobj m)
  | arr its => exact absurd rfl (harr its)
  | num v => rfl
  | str s => rfl
  | boolVal b => rfl
  | null => rfl

/-- Witness for C8 at the concrete unsupported payload `3` (a plain
number, as in the scenario of the spec). -/
theorem load_embeddings_shapes_witness :
    (∀ m, Json.num 3 ≠ Json.obj m) ∧ (∀ its, Json.num 3 ≠ Json.arr its) ∧
      _load_embeddings "e.json" (Json.num 3)
        = .error ("Unsupported embeddings format in " ++ "e.json") :=
  ⟨(fun m h => by cases h), (fun its h => by cases h),
    (load_embeddings_shapes "e.json" [] [] (Json.num 3)
      (fun m h => by cases h) (fun its h => by cases h)).2.2⟩

/-! ### C9 (corrected): the exact shape of a printed line -/

theorem format4_half : format4 (1 / 2) = "0.5000" := by
  have h2 : roundHalfEven (|(1 / 2 : ℚ)| * 10000) = 5000 := by
    have h : |(1 / 2 : ℚ)| * 10000 = 5000 := by
      rw [abs_of_nonneg (by norm_num : (0 : ℚ) ≤ 1 / 2)]
      norm_num
    rw [h]
    norm_num [roundHalfEven]
  simp only [format4, h2]
  rw [if_neg (by norm_num)]
  rfl

theorem renderLine_cex_eval : renderLine 1 (1 / 2) entryNoVec = " 1. c (0.5000)" := by
  simp only [renderLine, Entry.titleStr, Entry.pid, entryNoVec, Option.getD]
  rw [if_neg (by simp), format4_half]
  rfl

/-- C9 counterexample: at rank 1, id `c`, score `1/2` and no title, the
code prints ` 1. c (0.5000)` (width-2 right-justified rank followed by a
period), not the claimed `1 c (0.5000)` (rank followed by a bare space). -/
theorem render_format_cex :
    renderLine 1 (1 / 2) entryNoVec = " 1. c (0.5000)" ∧
      renderLine 1 (1 / 2) entryNoVec ≠ "1 c (0.5000)" := by
  refine ⟨renderLine_cex_eval, ?_⟩
  rw [renderLine_cex_eval]
  decide

/-- C9 amended: each printed line is the 1-based rank index
right-justified to width two, a period, a space, the candidate id, the
score in parentheses formatted to 4 decimal places, and — when a
*non-empty* title is present — the suffix ` - <title>`; an absent title
and an empty-string title both yield the same line without the suffix. -/
theorem render_format_amended (ranked : List (ℚ × Entry)) (idx : ℕ) (s : ℚ)
    (pid : Option String) (vf : VecField) (t : String) :
    (renderResults ranked).length = ranked.length
    ∧ (∀ i (h : i < ranked.length),
        (renderResults ranked).getD i ""
          = renderLine (i + 1) (ranked.get ⟨i, h⟩).1 (ranked.get ⟨i, h⟩).2)
    ∧ renderLine idx s ⟨pid, vf, some ""⟩ = renderLine idx s ⟨pid, vf, none⟩
    ∧ (t ≠ "" →
        renderLine idx s ⟨pid, vf, some t⟩
          = renderLine idx s ⟨pid, vf, none⟩ ++ " - " ++ t)
    ∧ renderLine idx s ⟨pid, vf, none⟩
        = padIdx idx ++ ". " ++ pid.getD "unknown" ++ " (" ++ format4 s ++ ")" := by
  refine ⟨by simp [renderResults], ?_, ?_, ?_, ?_⟩
  · intro i h
    rw [List.getD_eq_getElem _ _ (by simpa [renderResults] using h)]
    simp [renderResults]
  · simp [renderLine, Entry.titleStr, Entry.pid]
  · intro ht
    simp only [renderLine, Entry.titleStr, Entry.pid, Option.getD]
    rw [if_pos ht, if_neg (by simp)]
    simp [String.append_assoc]
  · simp only [renderLine, Entry.titleStr, Entry.pid, Option.getD]
    rw [if_neg (by simp)]

/-- Witness for the amended C9 at a concrete non-empty title. -/
theorem render_format_amended_witness :
    ("T" ≠ "") ∧
      renderLine 1 0 ⟨some "a", .absent, some "T"⟩
        = renderLine 1 0 ⟨some "a", .absent, none⟩ ++ " - " ++ "T" :=
  ⟨by decide,
    (render_format_amended [] 1 0 (some "a") .absent "T").2.2.2.1 (by decide)⟩

end NotionsSearch
